import Mathlib

/-!
# efsw: the C API header and the FSEvents watcher

A shallow embedding of `include/efsw/efsw.h` (the C wrapper's types,
enumerations and prototypes) and of `src/efsw/WatcherFSEvents.hpp` (the
per-directory watcher object with its `Parent` back-pointer), followed by the
properties established about them.

Enumerations are inductive types with their integer codes given by a `toInt`
function; C structs are structures; pointers are optional addresses (`none`
is `NULL`). The header and the class only declare their functions: where a
property needs a function body, the body is modelled from the specification
and the definition says so.
-/

namespace Efsw

/-! ## `efsw.h`: types -/

/-- Platforms the header distinguishes. Lines 35-60 select `EFSW_API` by
`defined( _WIN32 )`; the other branch covers every non-Windows target. The
flag records whether the target is a 64-bit one. -/
inductive Target where
  | win32 (is64 : Bool)
  | other (is64 : Bool)
  deriving DecidableEq, Repr

/-- Width in bits of the C type `long` on a target. The header does not fix it:
it is the platform ABI's. Windows keeps `long` at 32 bits on both its 32-bit
and 64-bit ABIs (ILP32, LLP64); elsewhere `long` is 64 bits on 64-bit targets
(LP64) and 32 bits on 32-bit targets (ILP32). -/
def Target.longBits : Target → Nat
  | .win32 _ => 32
  | .other true => 64
  | .other false => 32

/-- The typedef `typedef long efsw_watchid;` (line 63): a watch id is a C `long`. Values
are carried as integers; `efsw_watchid.representable` says which ones the
type holds. -/
abbrev efsw_watchid := Int

/-- The integers a signed two's-complement type of `bits` bits holds. -/
def signedRange (bits : Nat) (n : Int) : Prop :=
  -(2 : Int) ^ (bits - 1) ≤ n ∧ n ≤ (2 : Int) ^ (bits - 1) - 1

instance (bits : Nat) (n : Int) : Decidable (signedRange bits n) := by
  unfold signedRange; infer_instance

/-- The values `efsw_watchid` (a `long`) holds on target `t`. -/
def efsw_watchid.representable (t : Target) (n : Int) : Prop :=
  signedRange t.longBits n

instance (t : Target) (n : Int) : Decidable (efsw_watchid.representable t n) := by
  unfold efsw_watchid.representable; infer_instance

/-- The typedef `typedef void* efsw_watcher;` (line 66): an opaque handle,
`none` for `NULL`. -/
abbrev efsw_watcher := Option Nat

/-- The enumeration `enum efsw_action` (lines 68-73). -/
inductive efsw_action where
  | EFSW_ADD
  | EFSW_DELETE
  | EFSW_MODIFIED
  | EFSW_MOVED
  deriving DecidableEq, Repr

/-- The integer code the header gives each action. -/
def efsw_action.toInt : efsw_action → Int
  | .EFSW_ADD => 1
  | .EFSW_DELETE => 2
  | .EFSW_MODIFIED => 3
  | .EFSW_MOVED => 4

/-- Reading an integer as an action, the C cast `(enum efsw_action) n`
restricted to the values the enumeration declares. -/
def efsw_action.ofInt (n : Int) : Option efsw_action :=
  if n = 1 then some .EFSW_ADD
  else if n = 2 then some .EFSW_DELETE
  else if n = 3 then some .EFSW_MODIFIED
  else if n = 4 then some .EFSW_MOVED
  else none

/-- The enumeration `enum efsw_error` (lines 75-83). -/
inductive efsw_error where
  | EFSW_NOTFOUND
  | EFSW_REPEATED
  | EFSW_OUTOFSCOPE
  | EFSW_NOTREADABLE
  | EFSW_REMOTE
  | EFSW_WATCHER_FAILED
  | EFSW_UNSPECIFIED
  deriving DecidableEq, Repr

/-- The integer code the header gives each error. -/
def efsw_error.toInt : efsw_error → Int
  | .EFSW_NOTFOUND => -1
  | .EFSW_REPEATED => -2
  | .EFSW_OUTOFSCOPE => -3
  | .EFSW_NOTREADABLE => -4
  | .EFSW_REMOTE => -5
  | .EFSW_WATCHER_FAILED => -6
  | .EFSW_UNSPECIFIED => -7

/-- Whether the value `r` returned by `efsw_addwatch` ("On error returns WatchID
with Error type", line 145) is the code of error `e`. -/
def efsw_watchid.isError (r : efsw_watchid) (e : efsw_error) : Prop :=
  r = e.toInt

instance (r : efsw_watchid) (e : efsw_error) : Decidable (efsw_watchid.isError r e) := by
  unfold efsw_watchid.isError; infer_instance

/-- The enumeration `enum efsw_option` (lines 85-116). -/
inductive efsw_option where
  | EFSW_OPT_WIN_BUFFER_SIZE
  | EFSW_OPT_WIN_NOTIFY_FILTER
  | EFSW_OPT_MAC_MODIFIED_FILTER
  | EFSW_OPT_MAC_SANITIZE_EVENTS
  | LINUX_PRODUCE_SYNTHETIC_EVENTS
  deriving DecidableEq, Repr

/-- The integer code the header gives each option key. -/
def efsw_option.toInt : efsw_option → Int
  | .EFSW_OPT_WIN_BUFFER_SIZE => 1
  | .EFSW_OPT_WIN_NOTIFY_FILTER => 2
  | .EFSW_OPT_MAC_MODIFIED_FILTER => 3
  | .EFSW_OPT_MAC_SANITIZE_EVENTS => 4
  | .LINUX_PRODUCE_SYNTHETIC_EVENTS => 5

/-- The anonymous struct typedef `efsw_watcher_option` (lines 124-127):
`enum efsw_option option; int value;`. -/
structure efsw_watcher_option where
  option : efsw_option
  value : Int
  deriving DecidableEq, Repr

/-! ## `efsw.h`: prototypes -/

/-- C types occurring in the header's prototypes. -/
inductive CType where
  | void
  | int
  | long
  | ptr (const : Bool) (pointee : CType)
  | char
  | enum (tag : String)
  | named (typedefName : String)
  deriving DecidableEq, Repr

/-- Parameter of a prototype: its type and its name. -/
structure CParam where
  type : CType
  name : String
  deriving DecidableEq, Repr

/-- Function type: return type and parameters in declaration order. -/
structure CFunction where
  ret : CType
  params : List CParam
  deriving DecidableEq, Repr

/-- The type `const char*`. -/
def CType.constCharPtr : CType := .ptr true .char

/-- The type `void*`. -/
def CType.voidPtr : CType := .ptr false .void

/-- The header's typedefs of scalar types (lines 63 and 66). -/
def typedefs : String → Option CType
  | "efsw_watchid" => some .long
  | "efsw_watcher" => some CType.voidPtr
  | _ => none

/-- The callback type `efsw_pfn_fileaction_callback` (lines 119-122): the
function type the typedef names a pointer to. -/
def efsw_pfn_fileaction_callback : CFunction where
  ret := .void
  params :=
    [ ⟨.named "efsw_watcher", "watcher"⟩,
      ⟨.named "efsw_watchid", "watchid"⟩,
      ⟨CType.constCharPtr, "dir"⟩,
      ⟨CType.constCharPtr, "filename"⟩,
      ⟨.enum "efsw_action", "action"⟩,
      ⟨CType.constCharPtr, "old_filename"⟩,
      ⟨CType.voidPtr, "param"⟩ ]

/-- Prototype of `efsw_addwatch` (lines 146-148). -/
def efsw_addwatch_proto : CFunction where
  ret := .named "efsw_watchid"
  params :=
    [ ⟨.named "efsw_watcher", "watcher"⟩,
      ⟨CType.constCharPtr, "directory"⟩,
      ⟨.named "efsw_pfn_fileaction_callback", "callback_fn"⟩,
      ⟨.int, "recursive"⟩,
      ⟨CType.voidPtr, "param"⟩ ]

/-- Prototype of `efsw_addwatch_withoptions` (lines 153-156). -/
def efsw_addwatch_withoptions_proto : CFunction where
  ret := .named "efsw_watchid"
  params :=
    [ ⟨.named "efsw_watcher", "watcher"⟩,
      ⟨CType.constCharPtr, "directory"⟩,
      ⟨.named "efsw_pfn_fileaction_callback", "callback_fn"⟩,
      ⟨.int, "recursive"⟩,
      ⟨.ptr false (.named "efsw_watcher_option"), "options"⟩,
      ⟨.int, "options_number"⟩,
      ⟨CType.voidPtr, "param"⟩ ]

/-! ## The watcher behind an `efsw_watcher` handle

The header declares `efsw_create`, the two toggles and `efsw_removewatch_byid`
without bodies, and the class they forward to is not part of the sources. The
state they act on and their effect are modelled from the specification. -/

/-- Canonical absolute path: its components below the filesystem root. -/
abbrev Path := List String

/-- Modelled from the spec: the per-directory record "WatchEntry" of the data
model (§3), with the parent and the children stored as identifiers (§9). The
class that holds these records is missing from the sources. -/
structure WatchEntry where
  id : efsw_watchid
  directory : Path
  recursive : Bool
  listener : Nat
  parent : Option efsw_watchid
  children : List efsw_watchid
  backendHandle : Nat
  followSymlinks : Bool
  allowOutOfScopeLinks : Bool
  rootRealPath : Path
  deriving DecidableEq, Repr

/-- Modelled from the spec: the watcher instance an `efsw_watcher` handle points
to (its class is missing from the sources). It carries the two global toggles
(§6), the registry's two maps, identifier to entry and canonical directory to
identifier (§4.1), the last identifier handed out, and the backend
subscriptions released so far, oldest first. -/
structure FileWatcher where
  genericMode : Bool
  followSymlinks : Bool
  allowOutOfScopeLinks : Bool
  entries : List WatchEntry
  path2id : List (Path × efsw_watchid)
  lastId : efsw_watchid
  released : List Nat
  deriving DecidableEq, Repr

/-- Modelled from the spec: `efsw_create` (declared at line 133, body missing).
A fresh watcher watches nothing and has both toggles off: "follow-symlinks
(default off), allow-out-of-scope-links (default off)" (§6), as the header's
comments on lines 169 and 183 also say. -/
def efsw_create (generic_mode : Int) : FileWatcher where
  genericMode := decide (generic_mode ≠ 0)
  followSymlinks := false
  allowOutOfScopeLinks := false
  entries := []
  path2id := []
  lastId := 0
  released := []

/-- Modelled from the spec: `efsw_follow_symlinks` (declared at line 171, body
missing) sets the follow-symlinks toggle of this watcher; a non-zero `enable`
turns it on. -/
def efsw_follow_symlinks (w : FileWatcher) (enable : Int) : FileWatcher :=
  { w with followSymlinks := decide (enable ≠ 0) }

/-- Modelled from the spec: `efsw_follow_symlinks_isenabled` (declared at line
174, body missing) queries the follow-symlinks toggle. -/
def efsw_follow_symlinks_isenabled (w : FileWatcher) : Int :=
  if w.followSymlinks then 1 else 0

/-- Modelled from the spec: `efsw_allow_outofscopelinks` (declared at line 185,
body missing) sets the allow-out-of-scope-links toggle of this watcher; a
non-zero `allow` turns it on. -/
def efsw_allow_outofscopelinks (w : FileWatcher) (allow : Int) : FileWatcher :=
  { w with allowOutOfScopeLinks := decide (allow ≠ 0) }

/-- Modelled from the spec: `efsw_outofscopelinks_isallowed` (declared at line
188, body missing) queries the allow-out-of-scope-links toggle. -/
def efsw_outofscopelinks_isallowed (w : FileWatcher) : Int :=
  if w.allowOutOfScopeLinks then 1 else 0

/-- Modelled from the spec: the registry's `lookupByID(id) -> Option<&WatchEntry>`
(§4.1); the registry's code is missing from the sources. -/
def lookupByID (w : FileWatcher) (id : efsw_watchid) : Option WatchEntry :=
  w.entries.find? (fun e => e.id = id)

/-- Modelled from the spec: the registry's `unregister(id)` (§4.1), which
"removes the id→entry and path→id mapping"; with it the entry is destroyed and
its backend subscription released (§3, §4.3). The registry's code is missing
from the sources. -/
def unregister (w : FileWatcher) (id : efsw_watchid) : FileWatcher :=
  { w with
    entries := w.entries.filter (fun e => e.id ≠ id)
    path2id := w.path2id.filter (fun kv => kv.2 ≠ id)
    released := w.released ++ ((w.entries.filter (fun e => e.id = id)).map (fun e => e.backendHandle)) }

/-- Modelled from the spec: removal of the subtree rooted at an entry (§4.3):
"that entry and the entire subtree of children (depth-first, children before
parent) are unregistered and their backend subscriptions released". An
identifier with no entry is left alone. `depth` bounds how deep the children
are followed; the subtree's own code is missing from the sources. -/
def removeSubtree : Nat → FileWatcher → efsw_watchid → FileWatcher
  | 0, w, id =>
    match lookupByID w id with
    | none => w
    | some _ => unregister w id
  | depth + 1, w, id =>
    match lookupByID w id with
    | none => w
    | some e => unregister (e.children.foldl (fun acc c => removeSubtree depth acc c) w) id

/-- Modelled from the spec: `efsw_removewatch_byid` (declared at line 162, body
missing): "`removeWatch(WatchID)` — O(log n) identifier lookup, removes the
subtree" (§6). A subtree is no deeper than the number of entries. -/
def efsw_removewatch_byid (w : FileWatcher) (watchid : efsw_watchid) : FileWatcher :=
  removeSubtree w.entries.length w watchid

/-- Calls on a watcher whose effect on its state is modelled here. -/
inductive ApiCall where
  | follow_symlinks (enable : Int)
  | allow_outofscopelinks (allow : Int)
  | removewatch_byid (watchid : efsw_watchid)
  deriving DecidableEq, Repr

/-- The state after one call. -/
def ApiCall.run (w : FileWatcher) : ApiCall → FileWatcher
  | .follow_symlinks enable => efsw_follow_symlinks w enable
  | .allow_outofscopelinks allow => efsw_allow_outofscopelinks w allow
  | .removewatch_byid watchid => efsw_removewatch_byid w watchid

/-- The state after a sequence of calls, first call first. -/
def runCalls (w : FileWatcher) (calls : List ApiCall) : FileWatcher :=
  calls.foldl ApiCall.run w

/-! ## Symlink safety and the initial walk (§4.2, §4.3) -/

/-- Modelled from the spec: the two answers `{Enter, Skip}` of the Symlink
Safety Resolver (§4.2), whose code is missing from the sources. -/
inductive Decision where
  | Enter
  | Skip
  deriving DecidableEq, Repr

/-- Modelled from the spec: "descendant of `rootRealPath`" (§4.2), read on
canonical paths: the root's components start the path. The root counts as
inside its own scope. The path utilities are missing from the sources. -/
def isDescendant (rootRealPath d : Path) : Bool :=
  rootRealPath.isPrefixOf d

/-- Modelled from the spec: the Symlink Safety Resolver's contract (§4.2), whose
code is missing from the sources. `linkTarget` is `none` when the candidate is
not a symbolic link and `some d'` with its resolved real path when it is;
`chain` holds the real paths of the ancestors already traversed. The result is
the decision and the chain for the descent beneath the candidate. -/
def resolve (followSymlinks allowOutOfScopeLinks : Bool) (rootRealPath : Path)
    (chain : List Path) (linkTarget : Option Path) : Decision × List Path :=
  match linkTarget with
  | none => (.Enter, chain)
  | some d' =>
    if !followSymlinks then (.Skip, chain)
    else if d' ∈ chain then (.Skip, chain)
    else if !allowOutOfScopeLinks && !isDescendant rootRealPath d' then (.Skip, chain)
    else (.Enter, d' :: chain)

/-- Modelled from the spec: a candidate directory as the walk meets it (§4.2):
its name and, for a symbolic link, the real path `d'` the link resolves to.
The directory enumeration is missing from the sources. -/
structure DirEntry where
  name : String
  linkTarget : Option Path
  deriving DecidableEq, Repr

/-- Modelled from the spec: the filesystem as the walk sees it, the
subdirectories listed in the directory at a real path. The directory
enumeration is missing from the sources. -/
abbrev FileSystem := Path → List DirEntry

/-- Modelled from the spec: one step of the initial population (§4.3) at an
entry `e` listed in `dir`: the entry is put to the Symlink Safety Resolver and
entered only on `Enter`; `descend` is the walk beneath it. The result lists
the directories for which a WatchEntry is created and handed to the registry.
The tree manager's code is missing from the sources. -/
def visitChild (followSymlinks allowOutOfScopeLinks : Bool) (rootRealPath : Path)
    (chain : List Path) (dir : Path) (descend : List Path → Path → List Path)
    (e : DirEntry) : List Path :=
  match resolve followSymlinks allowOutOfScopeLinks rootRealPath chain e.linkTarget with
  | (.Skip, _) => []
  | (.Enter, chain') =>
    match e.linkTarget with
    | some d' => descend chain' d'
    | none => descend ((dir ++ [e.name]) :: chain') (dir ++ [e.name])

/-- Modelled from the spec: the initial population of a recursive watch (§4.3):
"depth-first walk from the root; for each directory passing the Symlink Safety
Resolver, create a WatchEntry". `chain` holds the real paths from the root down
to `dir`; the result lists, in creation order, the directories for which a
WatchEntry is created and handed to the registry (which refuses a directory
it already holds, §4.1). `depth` bounds the descent. The tree manager's code
is missing from the sources. -/
def populate (fs : FileSystem) (followSymlinks allowOutOfScopeLinks : Bool)
    (rootRealPath : Path) : Nat → List Path → Path → List Path
  | 0, _, dir => [dir]
  | depth + 1, chain, dir =>
    dir :: (fs dir).flatMap
      (visitChild followSymlinks allowOutOfScopeLinks rootRealPath chain dir
        (populate fs followSymlinks allowOutOfScopeLinks rootRealPath depth))

/-- Modelled from the spec: the directories the initial population of a
recursive watch of `rootRealPath` creates entries for, walking at most `depth`
levels down (§4.3). -/
def watchedDirectories (fs : FileSystem) (followSymlinks allowOutOfScopeLinks : Bool)
    (rootRealPath : Path) (depth : Nat) : List Path :=
  populate fs followSymlinks allowOutOfScopeLinks rootRealPath depth [rootRealPath] rootRealPath

/-! ## `WatcherFSEvents.hpp` -/

/-- Address of a `WatcherFSEvents` object; a `WatcherFSEvents *` is an optional
address, `none` for `NULL`. -/
abbrev WatcherPtr := Nat

/-- The part of `class WatcherFSEvents` (lines 12-34) the parent test reads: the
field `Parent` (line 27), next to what the constructor of line 17 passes on to
the base class `Watcher`: id, directory, listener and the recursive flag. -/
structure WatcherFSEvents where
  ID : efsw_watchid
  Directory : String
  Listener : Option Nat
  Recursive : Bool
  Parent : Option WatcherPtr
  deriving DecidableEq, Repr

/-- The constructor of line 17, `WatcherFSEvents( WatchID id, std::string
directory, FileWatchListener * listener, bool recursive, WatcherFSEvents *
parent = NULL )`: the last argument, `NULL` when left out, becomes `Parent`. -/
def WatcherFSEvents.new (id : efsw_watchid) (directory : String) (listener : Option Nat)
    (recursive : Bool) (parent : Option WatcherPtr := none) : WatcherFSEvents :=
  { ID := id, Directory := directory, Listener := listener, Recursive := recursive,
    Parent := parent }

/-- The live `WatcherFSEvents` objects by address. -/
abbrev Heap := WatcherPtr → Option WatcherFSEvents

/-- The `k`-th ancestor of the watcher at `w`: the object reached by following
`Parent` `k` times; `none` when the chain ends earlier. -/
def ancestor (h : Heap) : Nat → WatcherPtr → Option WatcherPtr
  | 0, w => some w
  | k + 1, w =>
    match h w with
    | none => none
    | some o =>
      match o.Parent with
      | none => none
      | some q => ancestor h k q

/-- The parent chain of the watcher at `w` ends at a root, an object whose
`Parent` is `NULL`, after at most `n` links, passing through live objects only. -/
def chainEnds (h : Heap) : Nat → WatcherPtr → Bool
  | 0, w =>
    match h w with
    | none => false
    | some o =>
      match o.Parent with
      | none => true
      | some _ => false
  | n + 1, w =>
    match h w with
    | none => false
    | some o =>
      match o.Parent with
      | none => true
      | some q => chainEnds h n q

/-- Modelled from the spec: the loop of `WatcherFSEvents::inParentTree` (declared
at line 21, body missing): starting from `tNext`, compare with `parent` and move
to `tNext->Parent` until `NULL`. The result is `none` when `steps` iterations
did not finish the loop or a pointer on the way is not a live object. -/
def inParentTreeLoop (h : Heap) (parent : Option WatcherPtr) :
    Nat → Option WatcherPtr → Option Bool
  | _, none => some false
  | 0, some _ => none
  | steps + 1, some t =>
    if some t = parent then some true
    else
      match h t with
      | none => none
      | some o => inParentTreeLoop h parent steps o.Parent

/-- Modelled from the spec: `bool WatcherFSEvents::inParentTree( WatcherFSEvents *
parent )` called on the object at `w` (declared at line 21, body missing): the
ancestors of `w`, starting at its `Parent`, are compared with `parent`, the
test behind "If `d'` equals any ancestor already in the current traversal
chain: `Skip`" (§4.2). The result is `none` when `w` is not a live object. -/
def inParentTree (h : Heap) (steps : Nat) (w : WatcherPtr) (parent : Option WatcherPtr) :
    Option Bool :=
  match h w with
  | none => none
  | some o => inParentTreeLoop h parent steps o.Parent

/-- Three watchers in a line, for checking the parent test on a concrete heap:
the object at 1 is a root built without a parent, 2 has parent 1, 3 has
parent 2; no other address is live. -/
def lineHeap : Heap
  | 1 => some (WatcherFSEvents.new 1 "/a/" (some 100) true)
  | 2 => some (WatcherFSEvents.new 2 "/a/b/" (some 100) true (some 1))
  | 3 => some (WatcherFSEvents.new 3 "/a/b/c/" (some 100) true (some 2))
  | _ => none

/-- Filesystem for the example in the header's comment (lines 179-180), a
symbolic link beneath `/home/folder` that points to `/`: the watched directory
`/home/folder` holds a plain subdirectory `sub` and the link `link`; `/` holds
`home` and `etc`, `/home` holds `folder`. -/
def homeFs : FileSystem
  | [] => [⟨"home", none⟩, ⟨"etc", none⟩]
  | ["home"] => [⟨"folder", none⟩]
  | ["home", "folder"] => [⟨"sub", none⟩, ⟨"link", some []⟩]
  | _ => []

/-- A watcher with four entries for checking removal on a concrete registry:
entry 1 is a root with children 2 and 3, entry 2 has the child 4; the backend
handle of entry `i` is `10 * i`. -/
def treeWatcher : FileWatcher where
  genericMode := false
  followSymlinks := false
  allowOutOfScopeLinks := false
  entries :=
    [ ⟨1, ["a"], true, 0, none, [2, 3], 10, false, false, ["a"]⟩,
      ⟨2, ["a", "b"], true, 0, some 1, [4], 20, false, false, ["a"]⟩,
      ⟨3, ["a", "c"], true, 0, some 1, [], 30, false, false, ["a"]⟩,
      ⟨4, ["a", "b", "d"], true, 0, some 2, [], 40, false, false, ["a"]⟩ ]
  path2id := [(["a"], 1), (["a", "b"], 2), (["a", "c"], 3), (["a", "b", "d"], 4)]
  lastId := 4
  released := []

/-! ## Theorems -/

/-- C1: `efsw_error` gives its seven members the codes -1 .. -7 in the order
NotFound, AlreadyWatched (REPEATED), OutOfScope, NotReadable, RemoteFilesystem
(REMOTE), BackendFailure (WATCHER_FAILED), Unspecified, and it has no other
member: every error is one of the seven, and an integer is an error code
exactly when it lies in -7 .. -1. -/
theorem efsw_error_codes :
    efsw_error.EFSW_NOTFOUND.toInt = -1 ∧
    efsw_error.EFSW_REPEATED.toInt = -2 ∧
    efsw_error.EFSW_OUTOFSCOPE.toInt = -3 ∧
    efsw_error.EFSW_NOTREADABLE.toInt = -4 ∧
    efsw_error.EFSW_REMOTE.toInt = -5 ∧
    efsw_error.EFSW_WATCHER_FAILED.toInt = -6 ∧
    efsw_error.EFSW_UNSPECIFIED.toInt = -7 ∧
    (∀ e : efsw_error,
      e ∈ [efsw_error.EFSW_NOTFOUND, .EFSW_REPEATED, .EFSW_OUTOFSCOPE, .EFSW_NOTREADABLE,
           .EFSW_REMOTE, .EFSW_WATCHER_FAILED, .EFSW_UNSPECIFIED]) ∧
    (∀ n : Int, (∃ e : efsw_error, e.toInt = n) ↔ (-7 ≤ n ∧ n ≤ -1)) := by
  refine ⟨rfl, rfl, rfl, rfl, rfl, rfl, rfl, ?_, ?_⟩
  · intro e; cases e <;> simp
  · intro n
    constructor
    · rintro ⟨e, rfl⟩; cases e <;> simp [efsw_error.toInt]
    · rintro ⟨h1, h2⟩
      have : n = -1 ∨ n = -2 ∨ n = -3 ∨ n = -4 ∨ n = -5 ∨ n = -6 ∨ n = -7 := by omega
      rcases this with h | h | h | h | h | h | h <;> subst h
      · exact ⟨.EFSW_NOTFOUND, rfl⟩
      · exact ⟨.EFSW_REPEATED, rfl⟩
      · exact ⟨.EFSW_OUTOFSCOPE, rfl⟩
      · exact ⟨.EFSW_NOTREADABLE, rfl⟩
      · exact ⟨.EFSW_REMOTE, rfl⟩
      · exact ⟨.EFSW_WATCHER_FAILED, rfl⟩
      · exact ⟨.EFSW_UNSPECIFIED, rfl⟩

/-- C2: the value `efsw_addwatch` returns is classified unambiguously. Every
`efsw_error` code is strictly negative and the codes are pairwise distinct, so
a returned value that is an error code is negative, it denotes at most one
error, and a non-negative value (a valid watch identifier) is no error code. -/
theorem efsw_addwatch_result_classified :
    (∀ e : efsw_error, e.toInt < 0) ∧
    Function.Injective efsw_error.toInt ∧
    (∀ (r : efsw_watchid) (e : efsw_error), efsw_watchid.isError r e → r < 0) ∧
    (∀ (r : efsw_watchid) (e₁ e₂ : efsw_error),
      efsw_watchid.isError r e₁ → efsw_watchid.isError r e₂ → e₁ = e₂) ∧
    (∀ r : efsw_watchid, 0 ≤ r → ∀ e : efsw_error, ¬ efsw_watchid.isError r e) ∧
    efsw_addwatch_proto.ret = CType.named "efsw_watchid" := by
  have neg : ∀ e : efsw_error, e.toInt < 0 := by
    intro e; cases e <;> simp [efsw_error.toInt]
  have inj : Function.Injective efsw_error.toInt := by
    intro a b h
    cases a <;> cases b <;> first | rfl | (simp [efsw_error.toInt] at h)
  refine ⟨neg, inj, ?_, ?_, ?_, rfl⟩
  · intro r e h
    unfold efsw_watchid.isError at h
    rw [h]; exact neg e
  · intro r e₁ e₂ h₁ h₂
    unfold efsw_watchid.isError at h₁ h₂
    exact inj (h₁.symm.trans h₂)
  · intro r hr e h
    unfold efsw_watchid.isError at h
    rw [h] at hr
    exact absurd (neg e) (not_lt.mpr hr)

/-- C3: the action vocabulary is exactly Add, Delete, Modified, Moved.
`efsw_action` has the four members with codes 1, 2, 3, 4, the codes are
pairwise distinct, reading back the code of an action gives that action, an
integer read as an action has that integer as its code, and an integer
outside 1 .. 4 is the code of no action. -/
theorem efsw_action_vocabulary :
    efsw_action.EFSW_ADD.toInt = 1 ∧
    efsw_action.EFSW_DELETE.toInt = 2 ∧
    efsw_action.EFSW_MODIFIED.toInt = 3 ∧
    efsw_action.EFSW_MOVED.toInt = 4 ∧
    (∀ a : efsw_action,
      a ∈ [efsw_action.EFSW_ADD, .EFSW_DELETE, .EFSW_MODIFIED, .EFSW_MOVED]) ∧
    Function.Injective efsw_action.toInt ∧
    (∀ a : efsw_action, efsw_action.ofInt a.toInt = some a) ∧
    (∀ (n : Int) (a : efsw_action), efsw_action.ofInt n = some a → a.toInt = n) ∧
    (∀ n : Int, (n < 1 ∨ 4 < n) →
      efsw_action.ofInt n = none ∧ ∀ a : efsw_action, a.toInt ≠ n) := by
  have back : ∀ a : efsw_action, efsw_action.ofInt a.toInt = some a := by
    intro a; cases a <;> rfl
  refine ⟨rfl, rfl, rfl, rfl, ?_, ?_, back, ?_, ?_⟩
  · intro a; cases a <;> simp
  · intro a b h
    have := congrArg efsw_action.ofInt h
    rw [back a, back b] at this
    exact Option.some.inj this
  · intro n a h
    unfold efsw_action.ofInt at h
    split_ifs at h with h1 h2 h3 h4 <;> cases h <;> simp [efsw_action.toInt, *]
  · intro n hn
    constructor
    · unfold efsw_action.ofInt
      have h1 : n ≠ 1 := by omega
      have h2 : n ≠ 2 := by omega
      have h3 : n ≠ 3 := by omega
      have h4 : n ≠ 4 := by omega
      simp [h1, h2, h3, h4]
    · intro a h
      cases a <;> simp [efsw_action.toInt] at h <;> omega

/-- C4, as the code has it: `efsw_watchid` is the C type `long`. It holds every
integer of the 32-bit signed range on every target, and the 64-bit signed
range exactly where `long` is 64 bits, the 64-bit targets outside the `_WIN32`
branch; in the `_WIN32` branch it holds the 32-bit signed range and no more. -/
theorem efsw_watchid_range :
    (∀ (t : Target) (n : Int), signedRange 32 n → efsw_watchid.representable t n) ∧
    (∀ n : Int, efsw_watchid.representable (Target.other true) n ↔ signedRange 64 n) ∧
    (∀ (is64 : Bool) (n : Int),
      efsw_watchid.representable (Target.win32 is64) n ↔ signedRange 32 n) ∧
    (∀ t : Target, (∀ n : Int, signedRange 64 n → efsw_watchid.representable t n) ↔
      t = Target.other true) := by
  refine ⟨?_, fun n => Iff.rfl, fun b n => Iff.rfl, ?_⟩
  · intro t n h
    unfold efsw_watchid.representable
    unfold signedRange at h ⊢
    rcases t with b | b
    · exact h
    · cases b
      · exact h
      · simp only [Target.longBits]
        norm_num at h ⊢
        omega
  · intro t
    constructor
    · intro h
      have h31 := h ((2 : Int) ^ 31) (by unfold signedRange; norm_num)
      unfold efsw_watchid.representable signedRange at h31
      rcases t with b | b
      · simp only [Target.longBits] at h31
        norm_num at h31
      · cases b
        · simp only [Target.longBits] at h31
          norm_num at h31
        · rfl
    · rintro rfl n h
      exact h

/-- C4, counterexample to the claim as written: in the `_WIN32` branch, on
64-bit Windows, `efsw_watchid` does not hold 2^31, an integer of the 64-bit
signed range, so an increasing identifier cannot go past 2^31 - 1 there. -/
theorem efsw_watchid_win32_not_64bit :
    signedRange 64 ((2 : Int) ^ 31) ∧
    efsw_watchid.representable (Target.win32 true) ((2 : Int) ^ 31 - 1) ∧
    ¬ efsw_watchid.representable (Target.win32 true) ((2 : Int) ^ 31) := by
  refine ⟨?_, ?_, ?_⟩
  · unfold signedRange; norm_num
  · unfold efsw_watchid.representable signedRange; simp only [Target.longBits]; norm_num
  · unfold efsw_watchid.representable signedRange; simp only [Target.longBits]; norm_num

/-- C5: the listener callback type takes seven arguments, in the order watcher
handle, watch id, directory, filename, action, old filename, user parameter,
of types `efsw_watcher`, `efsw_watchid`, `const char*`, `const char*`,
`enum efsw_action`, `const char*`, `void*`, and returns `void`. -/
theorem efsw_pfn_fileaction_callback_signature :
    efsw_pfn_fileaction_callback.params.length = 7 ∧
    efsw_pfn_fileaction_callback.params.map (fun p => p.name) =
      ["watcher", "watchid", "dir", "filename", "action", "old_filename", "param"] ∧
    efsw_pfn_fileaction_callback.params.map (fun p => p.type) =
      [CType.named "efsw_watcher", CType.named "efsw_watchid",
       CType.ptr true CType.char, CType.ptr true CType.char,
       CType.enum "efsw_action", CType.ptr true CType.char,
       CType.ptr false CType.void] ∧
    efsw_pfn_fileaction_callback.ret = CType.void ∧
    typedefs "efsw_watcher" = some (CType.ptr false CType.void) ∧
    typedefs "efsw_watchid" = some CType.long := by
  refine ⟨rfl, rfl, rfl, rfl, rfl, rfl⟩

/-- C6: a per-watch option is a pair of an enumerated key and an integer value.
`efsw_watcher_option` is in bijection with the pairs (key, value) through its
two fields; the keys have the codes 1 .. 5 and these are pairwise distinct, so
every key found in an option array handed to `efsw_addwatch_withoptions`
identifies exactly one option, and an integer is the code of at most one. -/
theorem efsw_watcher_option_keys :
    Function.Bijective (fun o : efsw_watcher_option => (o.option, o.value)) ∧
    efsw_option.EFSW_OPT_WIN_BUFFER_SIZE.toInt = 1 ∧
    efsw_option.EFSW_OPT_WIN_NOTIFY_FILTER.toInt = 2 ∧
    efsw_option.EFSW_OPT_MAC_MODIFIED_FILTER.toInt = 3 ∧
    efsw_option.EFSW_OPT_MAC_SANITIZE_EVENTS.toInt = 4 ∧
    efsw_option.LINUX_PRODUCE_SYNTHETIC_EVENTS.toInt = 5 ∧
    (∀ k : efsw_option,
      k ∈ [efsw_option.EFSW_OPT_WIN_BUFFER_SIZE, .EFSW_OPT_WIN_NOTIFY_FILTER,
           .EFSW_OPT_MAC_MODIFIED_FILTER, .EFSW_OPT_MAC_SANITIZE_EVENTS,
           .LINUX_PRODUCE_SYNTHETIC_EVENTS]) ∧
    Function.Injective efsw_option.toInt ∧
    (∀ (options : List efsw_watcher_option) (o : efsw_watcher_option), o ∈ options →
      ∃! k : efsw_option, k.toInt = o.option.toInt) ∧
    (∀ (n : Int) (k₁ k₂ : efsw_option), k₁.toInt = n → k₂.toInt = n → k₁ = k₂) ∧
    efsw_addwatch_withoptions_proto.params.map (fun p => p.type) =
      [CType.named "efsw_watcher", CType.ptr true CType.char,
       CType.named "efsw_pfn_fileaction_callback", CType.int,
       CType.ptr false (CType.named "efsw_watcher_option"), CType.int,
       CType.ptr false CType.void] := by
  have inj : Function.Injective efsw_option.toInt := by
    intro a b h
    cases a <;> cases b <;> first | rfl | (simp [efsw_option.toInt] at h)
  refine ⟨⟨?_, ?_⟩, rfl, rfl, rfl, rfl, rfl, ?_, inj, ?_, ?_, rfl⟩
  · rintro ⟨k, v⟩ ⟨k', v'⟩ h
    simp only [Prod.mk.injEq] at h
    rw [h.1, h.2]
  · rintro ⟨k, v⟩
    exact ⟨⟨k, v⟩, rfl⟩
  · intro k; cases k <;> simp
  · intro options o _
    exact ⟨o.option, rfl, fun k hk => inj hk⟩
  · intro n k₁ k₂ h₁ h₂
    exact inj (h₁.trans h₂.symm)

/-! ### The watcher's toggles and removal by identifier -/

/-- Unregistering an entry leaves the toggles as they are. -/
theorem unregister_toggles (w : FileWatcher) (id : efsw_watchid) :
    (unregister w id).followSymlinks = w.followSymlinks ∧
    (unregister w id).allowOutOfScopeLinks = w.allowOutOfScopeLinks := ⟨rfl, rfl⟩

/-- A fold of toggle-preserving steps preserves the toggles. -/
theorem foldl_toggles (f : FileWatcher → efsw_watchid → FileWatcher)
    (hf : ∀ acc c, (f acc c).followSymlinks = acc.followSymlinks ∧
      (f acc c).allowOutOfScopeLinks = acc.allowOutOfScopeLinks)
    (cs : List efsw_watchid) (w : FileWatcher) :
    (cs.foldl f w).followSymlinks = w.followSymlinks ∧
    (cs.foldl f w).allowOutOfScopeLinks = w.allowOutOfScopeLinks := by
  induction cs generalizing w with
  | nil => exact ⟨rfl, rfl⟩
  | cons c cs ih =>
    simp only [List.foldl_cons]
    exact ⟨(ih (f w c)).1.trans (hf w c).1, (ih (f w c)).2.trans (hf w c).2⟩

/-- Removing a subtree leaves the toggles as they are. -/
theorem removeSubtree_toggles (depth : Nat) (w : FileWatcher) (id : efsw_watchid) :
    (removeSubtree depth w id).followSymlinks = w.followSymlinks ∧
    (removeSubtree depth w id).allowOutOfScopeLinks = w.allowOutOfScopeLinks := by
  induction depth generalizing w id with
  | zero =>
    unfold removeSubtree
    cases lookupByID w id <;> exact ⟨rfl, rfl⟩
  | succ d ih =>
    unfold removeSubtree
    cases hl : lookupByID w id with
    | none => exact ⟨rfl, rfl⟩
    | some e =>
      have hfold := foldl_toggles (fun acc c => removeSubtree d acc c) (fun acc c => ih acc c)
        e.children w
      exact ⟨hfold.1, hfold.2⟩

/-- A sequence of calls that never turns follow-symlinks on leaves it off. -/
theorem runCalls_followSymlinks_off (calls : List ApiCall) (w : FileWatcher)
    (hw : w.followSymlinks = false)
    (h : ∀ enable : Int, ApiCall.follow_symlinks enable ∈ calls → enable = 0) :
    (runCalls w calls).followSymlinks = false := by
  induction calls generalizing w with
  | nil => exact hw
  | cons c cs ih =>
    unfold runCalls
    simp only [List.foldl_cons]
    apply ih
    · cases c with
      | follow_symlinks enable =>
        have := h enable (List.mem_cons_self _ _)
        simp [ApiCall.run, efsw_follow_symlinks, this]
      | allow_outofscopelinks allow => exact hw
      | removewatch_byid watchid =>
        exact (removeSubtree_toggles _ w watchid).1.trans hw
    · intro enable he
      exact h enable (List.mem_cons_of_mem _ he)

/-- A sequence of calls that never allows out-of-scope links leaves them
disallowed. -/
theorem runCalls_allowOutOfScopeLinks_off (calls : List ApiCall) (w : FileWatcher)
    (hw : w.allowOutOfScopeLinks = false)
    (h : ∀ allow : Int, ApiCall.allow_outofscopelinks allow ∈ calls → allow = 0) :
    (runCalls w calls).allowOutOfScopeLinks = false := by
  induction calls generalizing w with
  | nil => exact hw
  | cons c cs ih =>
    unfold runCalls
    simp only [List.foldl_cons]
    apply ih
    · cases c with
      | follow_symlinks enable => exact hw
      | allow_outofscopelinks allow =>
        have := h allow (List.mem_cons_self _ _)
        simp [ApiCall.run, efsw_allow_outofscopelinks, this]
      | removewatch_byid watchid =>
        exact (removeSubtree_toggles _ w watchid).2.trans hw
    · intro allow ha
      exact h allow (List.mem_cons_of_mem _ ha)

/-- C7: both global toggles are off by default. For a watcher fresh from
`efsw_create`, with either value of `generic_mode`, both queries return 0, and
each keeps returning 0 through any sequence of calls in which its own setter
is never given a non-zero argument; given one, the setter turns its toggle on. -/
theorem toggles_off_by_default (generic_mode : Int) (calls : List ApiCall) :
    efsw_follow_symlinks_isenabled (efsw_create generic_mode) = 0 ∧
    efsw_outofscopelinks_isallowed (efsw_create generic_mode) = 0 ∧
    ((∀ enable : Int, ApiCall.follow_symlinks enable ∈ calls → enable = 0) →
      efsw_follow_symlinks_isenabled (runCalls (efsw_create generic_mode) calls) = 0) ∧
    ((∀ allow : Int, ApiCall.allow_outofscopelinks allow ∈ calls → allow = 0) →
      efsw_outofscopelinks_isallowed (runCalls (efsw_create generic_mode) calls) = 0) ∧
    (∀ (w : FileWatcher) (enable : Int), enable ≠ 0 →
      efsw_follow_symlinks_isenabled (efsw_follow_symlinks w enable) = 1) ∧
    (∀ (w : FileWatcher) (allow : Int), allow ≠ 0 →
      efsw_outofscopelinks_isallowed (efsw_allow_outofscopelinks w allow) = 1) := by
  refine ⟨rfl, rfl, ?_, ?_, ?_, ?_⟩
  · intro h
    have := runCalls_followSymlinks_off calls (efsw_create generic_mode) rfl h
    simp [efsw_follow_symlinks_isenabled, this]
  · intro h
    have := runCalls_allowOutOfScopeLinks_off calls (efsw_create generic_mode) rfl h
    simp [efsw_outofscopelinks_isallowed, this]
  · intro w enable he
    simp [efsw_follow_symlinks_isenabled, efsw_follow_symlinks, he]
  · intro w allow ha
    simp [efsw_outofscopelinks_isallowed, efsw_allow_outofscopelinks, ha]

/-- C7 at a concrete run: after allowing out-of-scope links, removing watch 3
and calling the follow-symlinks setter with 0 on a fresh watcher, follow-symlinks
still reads 0. -/
theorem toggles_off_by_default_witness :
    efsw_follow_symlinks_isenabled
      (runCalls (efsw_create 1)
        [ApiCall.allow_outofscopelinks 1, ApiCall.removewatch_byid 3,
         ApiCall.follow_symlinks 0]) = 0 :=
  (toggles_off_by_default 1
    [ApiCall.allow_outofscopelinks 1, ApiCall.removewatch_byid 3,
     ApiCall.follow_symlinks 0]).2.2.1 (by
      intro enable h
      simp at h
      exact h)

/-- After `unregister`, the identifier has no entry. -/
theorem lookupByID_unregister (w : FileWatcher) (id : efsw_watchid) :
    lookupByID (unregister w id) id = none := by
  unfold lookupByID unregister
  simp only [List.find?_eq_none]
  intro e he
  have := (List.mem_filter.mp he).2
  simpa using this

/-- An identifier with no entry: removing its subtree changes nothing. -/
theorem removeSubtree_of_lookup_none (depth : Nat) (w : FileWatcher) (id : efsw_watchid)
    (h : lookupByID w id = none) : removeSubtree depth w id = w := by
  cases depth <;> simp [removeSubtree, h]

/-- After removing its subtree, the identifier has no entry. -/
theorem lookupByID_removeSubtree (depth : Nat) (w : FileWatcher) (id : efsw_watchid) :
    lookupByID (removeSubtree depth w id) id = none := by
  cases depth with
  | zero =>
    unfold removeSubtree
    cases h : lookupByID w id with
    | none => simpa using h
    | some e => exact lookupByID_unregister w id
  | succ d =>
    unfold removeSubtree
    cases h : lookupByID w id with
    | none => simpa using h
    | some e => exact lookupByID_unregister _ id

/-- C9: removing a watch by id is idempotent. For every watcher state and every
watch id, a second `efsw_removewatch_byid` with the same id leaves the state,
its registry and the record of released backend subscriptions included, as the
first call left it: after the first call the id is not found, and a call on an
id that is not found changes nothing. -/
theorem efsw_removewatch_byid_idempotent (w : FileWatcher) (watchid : efsw_watchid) :
    efsw_removewatch_byid (efsw_removewatch_byid w watchid) watchid
      = efsw_removewatch_byid w watchid ∧
    lookupByID (efsw_removewatch_byid w watchid) watchid = none ∧
    (∀ w' : FileWatcher, lookupByID w' watchid = none →
      efsw_removewatch_byid w' watchid = w') := by
  have noop : ∀ w' : FileWatcher, lookupByID w' watchid = none →
      efsw_removewatch_byid w' watchid = w' :=
    fun w' h => removeSubtree_of_lookup_none _ w' watchid h
  have gone : lookupByID (efsw_removewatch_byid w watchid) watchid = none :=
    lookupByID_removeSubtree _ w watchid
  exact ⟨noop _ gone, gone, noop⟩

/-- Removal on the concrete registry `treeWatcher`: removing watch 1 empties the
registry and releases the subscriptions children first (4, 2, 3, then 1);
removing it again, or removing an id never handed out, changes nothing. -/
theorem efsw_removewatch_byid_treeWatcher :
    (efsw_removewatch_byid treeWatcher 1).entries = [] ∧
    (efsw_removewatch_byid treeWatcher 1).path2id = [] ∧
    (efsw_removewatch_byid treeWatcher 1).released = [40, 20, 30, 10] ∧
    (efsw_removewatch_byid (efsw_removewatch_byid treeWatcher 1) 1).released
      = [40, 20, 30, 10] ∧
    (efsw_removewatch_byid treeWatcher 2).entries.map (fun e => e.id) = [1, 3] ∧
    (efsw_removewatch_byid treeWatcher 7).entries.map (fun e => e.id) = [1, 2, 3, 4] := by
  decide

/-! ### Symlink safety -/

/-- A path inside the scope stays inside it when extended by a component. -/
theorem isDescendant_append (rootRealPath dir : Path) (name : String)
    (h : isDescendant rootRealPath dir = true) :
    isDescendant rootRealPath (dir ++ [name]) = true := by
  unfold isDescendant at h ⊢
  rw [List.isPrefixOf_iff_prefix] at h ⊢
  exact h.trans (List.prefix_append dir [name])

/-- With out-of-scope links disallowed, the walk below a directory inside the
scope creates entries inside the scope only. -/
theorem populate_in_scope (fs : FileSystem) (followSymlinks : Bool) (rootRealPath : Path)
    (depth : Nat) (chain : List Path) (dir : Path)
    (hdir : isDescendant rootRealPath dir = true) :
    ∀ q ∈ populate fs followSymlinks false rootRealPath depth chain dir,
      isDescendant rootRealPath q = true := by
  induction depth generalizing chain dir with
  | zero =>
    intro q hq
    simp only [populate, List.mem_singleton] at hq
    rw [hq]; exact hdir
  | succ d ih =>
    intro q hq
    simp only [populate, List.mem_cons, List.mem_flatMap] at hq
    rcases hq with rfl | ⟨e, _, hq⟩
    · exact hdir
    · unfold visitChild resolve at hq
      cases hlink : e.linkTarget with
      | none =>
        simp only [hlink] at hq
        exact ih _ _ (isDescendant_append rootRealPath dir e.name hdir) q hq
      | some d' =>
        simp only [hlink] at hq
        by_cases hf : followSymlinks = true
        · subst hf
          by_cases hc : d' ∈ chain
          · simp [hc] at hq
          · cases hs : isDescendant rootRealPath d' with
            | false => simp [hc, hs] at hq
            | true =>
              simp only [hc, hs, Bool.not_true, Bool.not_false, Bool.and_false,
                Bool.false_eq_true, if_false] at hq
              exact ih _ _ hs q hq
        · simp [hf] at hq

/-- C8: out-of-scope symbolic links are skipped by default. With follow-symlinks
enabled and allow-out-of-scope-links disabled, a symbolic link whose resolved
real path `d'` is not a descendant of the root's real path is answered with
`Skip`; the walk creates nothing at it, whatever lies beneath its target; and
the recursive watch of the root gets an entry neither for `d'` nor for any
other directory outside the root's scope. -/
theorem out_of_scope_link_skipped (fs : FileSystem) (rootRealPath : Path)
    (chain : List Path) (dir : Path) (name : String) (d' : Path)
    (descend : List Path → Path → List Path) (depth : Nat)
    (hscope : isDescendant rootRealPath d' = false) :
    (resolve true false rootRealPath chain (some d')).1 = Decision.Skip ∧
    visitChild true false rootRealPath chain dir descend ⟨name, some d'⟩ = [] ∧
    d' ∉ watchedDirectories fs true false rootRealPath depth ∧
    (∀ q ∈ watchedDirectories fs true false rootRealPath depth,
      isDescendant rootRealPath q = true) := by
  have hroot : isDescendant rootRealPath rootRealPath = true := by
    unfold isDescendant
    exact List.isPrefixOf_iff_prefix.mpr (List.prefix_refl _)
  have hall := populate_in_scope fs true rootRealPath depth [rootRealPath] rootRealPath hroot
  refine ⟨?_, ?_, ?_, hall⟩
  · unfold resolve
    by_cases hc : d' ∈ chain <;> simp [hc, hscope]
  · unfold visitChild resolve
    by_cases hc : d' ∈ chain <;> simp [hc, hscope]
  · intro hmem
    have := hall d' hmem
    rw [hscope] at this
    cases this

/-- C8 on the header's example: watching `/home/folder`, whose entry `link`
points to `/`, with follow-symlinks on and out-of-scope links off, the link is
skipped and `/` gets no entry. -/
theorem out_of_scope_link_skipped_witness :
    isDescendant ["home", "folder"] [] = false ∧
    (resolve true false ["home", "folder"] [["home", "folder"]] (some [])).1 = Decision.Skip ∧
    visitChild true false ["home", "folder"] [["home", "folder"]] ["home", "folder"]
      (populate homeFs true false ["home", "folder"] 4) ⟨"link", some []⟩ = [] ∧
    [] ∉ watchedDirectories homeFs true false ["home", "folder"] 5 ∧
    (∀ q ∈ watchedDirectories homeFs true false ["home", "folder"] 5,
      isDescendant ["home", "folder"] q = true) :=
  ⟨by decide,
   out_of_scope_link_skipped homeFs ["home", "folder"] [["home", "folder"]] ["home", "folder"]
     "link" [] (populate homeFs true false ["home", "folder"] 4) 5 (by decide)⟩

/-- The walk on the header's example: by default only `/home/folder` and its
plain subdirectory are watched; once out-of-scope links are allowed the link
is entered and `/` and `/etc` are reached through it. -/
theorem watchedDirectories_homeFs :
    watchedDirectories homeFs true false ["home", "folder"] 5
      = [["home", "folder"], ["home", "folder", "sub"]] ∧
    watchedDirectories homeFs false false ["home", "folder"] 5
      = [["home", "folder"], ["home", "folder", "sub"]] ∧
    [] ∈ watchedDirectories homeFs true true ["home", "folder"] 5 ∧
    ["etc"] ∈ watchedDirectories homeFs true true ["home", "folder"] 5 := by
  decide

/-! ### The parent test of `WatcherFSEvents` -/

/-- The loop started at a live watcher whose chain ends within `n` links
finishes within `n + 1` iterations and answers whether `parent` is that
watcher or one of its ancestors. -/
theorem inParentTreeLoop_spec (h : Heap) (parent : WatcherPtr) (n : Nat) :
    ∀ (q : WatcherPtr) (steps : Nat), chainEnds h n q = true → n + 1 ≤ steps →
      ∃ b, inParentTreeLoop h (some parent) steps (some q) = some b ∧
        (b = true ↔ ∃ k, ancestor h k q = some parent) := by
  induction n with
  | zero =>
    intro q steps hq hs
    obtain ⟨s, rfl⟩ : ∃ s, steps = s + 1 := ⟨steps - 1, by omega⟩
    unfold inParentTreeLoop
    by_cases hqp : q = parent
    · exact ⟨true, by simp [hqp], ⟨fun _ => ⟨0, by simp [ancestor, hqp]⟩, fun _ => rfl⟩⟩
    · cases ho : h q with
      | none => simp [chainEnds, ho] at hq
      | some o =>
        cases hp : o.Parent with
        | some q' => simp [chainEnds, ho, hp] at hq
        | none =>
          refine ⟨false, by simp [hqp, hp, inParentTreeLoop], ?_⟩
          constructor
          · intro hb; cases hb
          · rintro ⟨k, hk⟩
            cases k with
            | zero => simp [ancestor] at hk; exact absurd hk hqp
            | succ k => simp [ancestor, ho, hp] at hk
  | succ n ih =>
    intro q steps hq hs
    obtain ⟨s, rfl⟩ : ∃ s, steps = s + 1 := ⟨steps - 1, by omega⟩
    unfold inParentTreeLoop
    by_cases hqp : q = parent
    · exact ⟨true, by simp [hqp], ⟨fun _ => ⟨0, by simp [ancestor, hqp]⟩, fun _ => rfl⟩⟩
    · cases ho : h q with
      | none => simp [chainEnds, ho] at hq
      | some o =>
        cases hp : o.Parent with
        | none =>
          refine ⟨false, by simp [hqp, hp, inParentTreeLoop], ?_⟩
          constructor
          · intro hb; cases hb
          · rintro ⟨k, hk⟩
            cases k with
            | zero => simp [ancestor] at hk; exact absurd hk hqp
            | succ k => simp [ancestor, ho, hp] at hk
        | some q' =>
          simp only [chainEnds, ho, hp] at hq
          obtain ⟨b, hb, hiff⟩ := ih q' s hq (by omega)
          refine ⟨b, by simp [hqp, hp, hb], ?_⟩
          rw [hiff]
          constructor
          · rintro ⟨k, hk⟩
            exact ⟨k + 1, by simp [ancestor, ho, hp, hk]⟩
          · rintro ⟨k, hk⟩
            cases k with
            | zero => simp [ancestor] at hk; exact absurd hk hqp
            | succ k =>
              simp only [ancestor, ho, hp] at hk
              exact ⟨k, hk⟩

/-- C10: the ancestor test on the parent chain. For a watcher `w` whose `Parent`
chain ends at a root within `n` links, `inParentTree` finishes within `n`
iterations and returns true exactly when `p` is reached from `w` by following
`Parent` one or more times; for a root built without a parent argument it
returns false for every `p`. -/
theorem inParentTree_spec (h : Heap) (n : Nat) (w p : WatcherPtr)
    (hchain : chainEnds h n w = true) :
    (∀ steps : Nat, n ≤ steps →
      ∃ b, inParentTree h steps w (some p) = some b ∧
        (b = true ↔ ∃ k, 1 ≤ k ∧ ancestor h k w = some p)) ∧
    (∀ (id : efsw_watchid) (directory : String) (listener : Option Nat) (recursive : Bool)
        (steps : Nat),
      h w = some (WatcherFSEvents.new id directory listener recursive) →
        inParentTree h steps w (some p) = some false) := by
  constructor
  · intro steps hs
    unfold inParentTree
    cases ho : h w with
    | none => cases n <;> simp [chainEnds, ho] at hchain
    | some o =>
      cases hp : o.Parent with
      | none =>
        refine ⟨false, by cases steps <;> simp [hp, inParentTreeLoop], ?_⟩
        constructor
        · intro hb; cases hb
        · rintro ⟨k, hk1, hk⟩
          cases k with
          | zero => omega
          | succ k => simp [ancestor, ho, hp] at hk
      | some q =>
        cases n with
        | zero => simp [chainEnds, ho, hp] at hchain
        | succ m =>
          simp only [chainEnds, ho, hp] at hchain
          obtain ⟨b, hb, hiff⟩ := inParentTreeLoop_spec h p m q steps hchain hs
          refine ⟨b, by simp [hp, hb], ?_⟩
          rw [hiff]
          constructor
          · rintro ⟨k, hk⟩
            exact ⟨k + 1, by omega, by simp [ancestor, ho, hp, hk]⟩
          · rintro ⟨k, hk1, hk⟩
            cases k with
            | zero => omega
            | succ k =>
              simp only [ancestor, ho, hp] at hk
              exact ⟨k, hk⟩
  · intro id directory listener recursive steps ho
    unfold inParentTree
    rw [ho]
    cases steps <;> simp [WatcherFSEvents.new, inParentTreeLoop]

/-- C10 on the concrete heap `lineHeap`: the chain of watcher 3 ends within two
links, and the test for watcher 1 against it finishes within two iterations
with the answer the ancestor relation gives. -/
theorem inParentTree_spec_witness :
    chainEnds lineHeap 2 3 = true ∧
    ∃ b, inParentTree lineHeap 2 3 (some 1) = some b ∧
      (b = true ↔ ∃ k, 1 ≤ k ∧ ancestor lineHeap k 3 = some 1) :=
  ⟨by decide, (inParentTree_spec lineHeap 2 3 1 (by decide)).1 2 (le_refl 2)⟩

/-- The parent test evaluated on `lineHeap`: 1 and 2 are in the parent tree of
3; 3 is not in its own parent tree nor in that of its ancestors; the root 1
has nothing in its parent tree; `NULL` is in no parent tree; one iteration is
too few for the grandparent. -/
theorem inParentTree_lineHeap :
    inParentTree lineHeap 2 3 (some 1) = some true ∧
    inParentTree lineHeap 2 3 (some 2) = some true ∧
    inParentTree lineHeap 2 3 (some 3) = some false ∧
    inParentTree lineHeap 2 1 (some 3) = some false ∧
    inParentTree lineHeap 2 2 (some 3) = some false ∧
    inParentTree lineHeap 0 1 (some 1) = some false ∧
    inParentTree lineHeap 2 3 none = some false ∧
    inParentTree lineHeap 1 3 (some 1) = none := by
  decide

end Efsw
